import Mathlib

/-!
Verification of the Plan 9 a.out → ELF converter (`src/main.rs`).

The development shallowly embeds the conversion pipeline over `List Nat`
byte buffers (each element is one byte, `< 256`).  Machine integers are
modelled as `Nat` with explicit `% 2^32` / `% 2^64` wherever the Rust
source performs `u32` / `u64` arithmetic (release-build wrapping
semantics); distinct "checked" definitions record where a debug build
would panic on underflow/overflow.  Rust panics (`todo!`, `panic!`,
out-of-bounds slicing) are modelled by the `ConvResult.crash`
constructor; the `Result::Err` branch is `ConvResult.err`.

Throughout, the host is taken to be little-endian (the `magic` field of
the a.out header is read with native endianness in the source; all other
a.out header fields are explicitly big-endian).
-/

/-- One byte of a buffer, `0` when out of range (reads in the embedding are
always performed inside a bounds-checked region, mirroring the panicking
slice operations of the source). -/
def byteAt (d : List Nat) (i : Nat) : Nat := d.getD i 0

/-- Big-endian 32-bit read at offset `i`, as in the `U32` (big-endian)
fields of the a.out header. -/
def be32at (d : List Nat) (i : Nat) : Nat :=
  byteAt d i * 0x1000000 + byteAt d (i + 1) * 0x10000 +
    byteAt d (i + 2) * 0x100 + byteAt d (i + 3)

/-- Little-endian (native) 32-bit read at offset `i`, as for the `magic`
field of the a.out header. -/
def le32at (d : List Nat) (i : Nat) : Nat :=
  byteAt d i + byteAt d (i + 1) * 0x100 +
    byteAt d (i + 2) * 0x10000 + byteAt d (i + 3) * 0x1000000

/-- Little-endian serialization of a 16-bit value (zerocopy `IntoBytes` on
a little-endian host). -/
def le16 (n : Nat) : List Nat := [n % 0x100, n / 0x100 % 0x100]

/-- Little-endian serialization of a 32-bit value. -/
def le32 (n : Nat) : List Nat :=
  [n % 0x100, n / 0x100 % 0x100, n / 0x10000 % 0x100, n / 0x1000000 % 0x100]

/-- Little-endian serialization of a 64-bit value. -/
def le64 (n : Nat) : List Nat :=
  le32 (n % 0x100000000) ++ le32 (n / 0x100000000 % 0x100000000)

/-- The two machine targets the converter knows (`ElfMachine` variants
actually produced by `aout_mach_to_elf`). -/
inductive ElfMachine where
  | Amd64
  | RiscV
deriving DecidableEq, Inhabited, Repr

/-- `is_64bit` from the source: Amd64 is emitted as 32-bit ELF, RiscV as
64-bit ELF. -/
def is64bit : ElfMachine → Bool
  | .Amd64 => false
  | .RiscV => true

/-- ELF machine code of the target (`ElfMachine` discriminants
`Amd64 = 0x3E`, `RiscV = 0xF3`). -/
def machineCode : ElfMachine → Nat
  | .Amd64 => 0x3E
  | .RiscV => 0xF3

/-- `VIRTUAL_BASE_AMD64` / `VIRTUAL_BASE_RISCV64` from the source. -/
def virtualBase : ElfMachine → Nat
  | .Amd64 => 0x80000000
  | .RiscV => 0

/-- `aout_mach_to_elf`: the fixed magic lookup.  The `todo!` branch for
any other magic is a panic, modelled as `none`. -/
def machOf (magic : Nat) : Option ElfMachine :=
  if magic = 0x978a0000 then some ElfMachine.Amd64
  else if magic = 0x178e0000 then some ElfMachine.RiscV
  else none

/-- `align_4k` from the source, with `u32` release (wrapping) semantics:
`((v - 1) / 4096 + 1) * 4096` where the subtraction and the final
multiplication wrap modulo `2^32`. -/
def align_4k (v : Nat) : Nat :=
  (((v + 0x100000000 - 1) % 0x100000000) / 4096 + 1) * 4096 % 0x100000000

/-- `align_4k` with debug-build (checked) arithmetic: `none` when the
`v - 1` subtraction underflows (`v = 0`) or the `* 4096` multiplication
overflows `u32`. -/
def align4kChecked (v : Nat) : Option Nat :=
  if v = 0 then none
  else
    let r := ((v - 1) / 4096 + 1) * 4096
    if r < 0x100000000 then some r else none

/-- The exact (unbounded) round-up to the next 4096-byte boundary used by
`align_4k` for inputs `1 ≤ v`. -/
def align4kExact (v : Nat) : Nat := ((v - 1) / 4096 + 1) * 4096

/-- `AOUT_HEADER_SIZE = size_of::<Aout>()` (eight packed `u32` fields). -/
def AOUT_HEADER_SIZE : Nat := 32

/-- `PAD_EXTRA_SIZE` from the source. -/
def PAD_EXTRA_SIZE : Nat := 8

/-- `PAD_SIZE = PAD_BASIC_SIZE + PAD_EXTRA_SIZE = 4 + 8`. -/
def PAD_SIZE : Nat := 12

/-- Sizes of the packed ELF structures (`size_of` of the corresponding
Rust `repr(C, packed)` structs). -/
def ELF32_HEADER_SIZE : Nat := 52
def ELF64_HEADER_SIZE : Nat := 64
def ELF32_PROGRAM_HEADER_SIZE : Nat := 32
def ELF64_PROGRAM_HEADER_SIZE : Nat := 56
def ELF32_SECTION_HEADER_SIZE : Nat := 40
def ELF64_SECTION_HEADER_SIZE : Nat := 64
def ELF32_SYMBOL_TABLE_ENTRY_SIZE : Nat := 16
def ELF64_SYMBOL_TABLE_ENTRY_SIZE : Nat := 24

/-- Per-machine ELF header size. -/
def ehSize (m : ElfMachine) : Nat :=
  if is64bit m then ELF64_HEADER_SIZE else ELF32_HEADER_SIZE

/-- Per-machine program header entry size. -/
def phSize (m : ElfMachine) : Nat :=
  if is64bit m then ELF64_PROGRAM_HEADER_SIZE else ELF32_PROGRAM_HEADER_SIZE

/-- Per-machine section header entry size. -/
def shSize (m : ElfMachine) : Nat :=
  if is64bit m then ELF64_SECTION_HEADER_SIZE else ELF32_SECTION_HEADER_SIZE

/-- Per-machine symbol table entry size. -/
def symEntSize (m : ElfMachine) : Nat :=
  if is64bit m then ELF64_SYMBOL_TABLE_ENTRY_SIZE else ELF32_SYMBOL_TABLE_ENTRY_SIZE

/-- `main_offset` from `aout_to_elf`: ELF header + 3 program headers +
6 section headers + the 12-byte pad block. -/
def mainOffset (m : ElfMachine) : Nat :=
  ehSize m + 3 * phSize m + 6 * shSize m + PAD_SIZE

/-- The decoded 32-byte a.out header (`Aout` struct). -/
structure Aout where
  magic : Nat
  text_size : Nat
  data_size : Nat
  bss_size : Nat
  symbol_table_size : Nat
  entry_point : Nat
  sp_size : Nat
  pc_size : Nat
deriving DecidableEq, Inhabited, Repr

/-- Decode the a.out header from the prefix of a buffer
(`Aout::read_from_prefix`): fails when fewer than 32 bytes are
available; `magic` is read native (little-endian), the other fields
big-endian. -/
def parseAout (d : List Nat) : Option Aout :=
  if d.length < 32 then none
  else some
    { magic := le32at d 0
      text_size := be32at d 4
      data_size := be32at d 8
      bss_size := be32at d 12
      symbol_table_size := be32at d 16
      entry_point := be32at d 20
      sp_size := be32at d 24
      pc_size := be32at d 28 }

/-- A decoded a.out symbol record (`AoutSymbol`): the 4-byte spacer is
dropped, `value` is the big-endian address, `symType` the raw type
byte, and `name` the byte content of the decoded `&str` name. -/
structure AoutSym where
  value : Nat
  symType : Nat
  name : List Nat
deriving DecidableEq, Inhabited, Repr

/-- The semantic symbol categories (`AoutSymbolType`). -/
inductive AoutSymbolType where
  | TextSegment
  | StaticTextSegment
  | LeafFunction
  | StaticLeafFunction
  | DataSegment
  | StaticDataSegment
  | BssSegment
  | StaticBssSegment
  | AutoVariable
  | FunctionParam
  | FrameSymbol
  | SourceFileNameComp
  | SourceFileName
  | SourceFileOffset
  | Underscore
  | Curly
  | E
  | G
  | I
  | O
  | S
  | U
  | V
  | W
  | Zero
  | Unknown
deriving DecidableEq, Inhabited, Repr

/-- `aout_symbol_type`: classify the type byte after discarding its top
bit (`sym_type & !0x80`, i.e. `% 128` for a byte). -/
def aoutSymbolType (s : AoutSym) : AoutSymbolType :=
  let t := s.symType % 128
  if t = 0x54 then .TextSegment              -- 'T'
  else if t = 0x74 then .StaticTextSegment   -- 't'
  else if t = 0x4C then .LeafFunction        -- 'L'
  else if t = 0x6C then .StaticLeafFunction  -- 'l'
  else if t = 0x44 then .DataSegment         -- 'D'
  else if t = 0x64 then .StaticDataSegment   -- 'd'
  else if t = 0x62 then .StaticBssSegment    -- 'b'
  else if t = 0x42 then .BssSegment          -- 'B'
  else if t = 0x61 then .AutoVariable        -- 'a'
  else if t = 0x70 then .FunctionParam       -- 'p'
  else if t = 0x6D then .FrameSymbol         -- 'm'
  else if t = 0x66 then .SourceFileNameComp  -- 'f'
  else if t = 0x7A then .SourceFileName      -- 'z'
  else if t = 0x5A then .SourceFileOffset    -- 'Z'
  else if t = 0x65 then .E                   -- 'e'
  else if t = 0x67 then .G                   -- 'g'
  else if t = 0x49 then .I                   -- 'I'
  else if t = 0x6F then .O                   -- 'o'
  else if t = 0x53 then .S                   -- 'S'
  else if t = 0x75 then .U                   -- 'u'
  else if t = 0x76 then .V                   -- 'v'
  else if t = 0x77 then .W                   -- 'w'
  else if t = 0x5F then .Underscore          -- '_'
  else if t = 0x30 then .Zero                -- '0'
  else if t = 0x7B then .Curly               -- left brace
  else .Unknown

/-- Bytes strictly before the first NUL byte, or `none` when the buffer
holds no NUL (`CStr::from_bytes_until_nul`). -/
def bytesUntilNul : List Nat → Option (List Nat)
  | [] => none
  | b :: rest =>
    if b = 0 then some []
    else match bytesUntilNul rest with
      | some bs => some (b :: bs)
      | none => none

/-- Whether a byte tail is a single UTF-8 continuation byte. -/
def utf8Cont (b : Nat) : Bool := 0x80 ≤ b && b ≤ 0xBF

/-- Standard UTF-8 validity of a byte sequence (`str::from_utf8`
acceptance: no overlong forms, no surrogates, max U+10FFFF). -/
def isValidUtf8 : List Nat → Bool
  | [] => true
  | b :: rest =>
    if b < 0x80 then isValidUtf8 rest
    else if b < 0xC2 then false
    else if b < 0xE0 then
      match rest with
      | c :: r => utf8Cont c && isValidUtf8 r
      | [] => false
    else if b < 0xF0 then
      match rest with
      | c :: c2 :: r =>
        (if b = 0xE0 then 0xA0 ≤ c && c ≤ 0xBF
         else if b = 0xED then 0x80 ≤ c && c ≤ 0x9F
         else utf8Cont c) && utf8Cont c2 && isValidUtf8 r
      | _ => false
    else if b ≤ 0xF4 then
      match rest with
      | c :: c2 :: c3 :: r =>
        (if b = 0xF0 then 0x90 ≤ c && c ≤ 0xBF
         else if b = 0xF4 then 0x80 ≤ c && c ≤ 0x8F
         else utf8Cont c) && utf8Cont c2 && utf8Cont c3 && isValidUtf8 r
      | _ => false
    else false

/-- The bytes of the substitute name `"[noname]"` used when the name
bytes are not valid UTF-8. -/
def nonameBytes : List Nat := [0x5B, 0x6E, 0x6F, 0x6E, 0x61, 0x6D, 0x65, 0x5D]

/-- `SYM_HEADER_SIZE`: spacer (4) + value (4) + type byte (1). -/
def SYM_HEADER_SIZE : Nat := 9

/-- `parse_sym` on a buffer of at least 9 bytes: big-endian `value` at
offset 4, type byte at offset 8, then the name from a bounded 128-byte
window — with no NUL in the window the name falls back to the empty
string (`unwrap_or` of the empty C string), and with invalid UTF-8 to
`"[noname]"`. -/
def parseSym (st : List Nat) : AoutSym :=
  let maxLen := min 0x80 (st.length - SYM_HEADER_SIZE)
  let window := (st.drop SYM_HEADER_SIZE).take maxLen
  let name :=
    match bytesUntilNul window with
    | none => []
    | some bs => if isValidUtf8 bs then bs else nonameBytes
  { value := be32at st 4, symType := byteAt st 8, name := name }

/-- `AoutSymbol::len`: header size + name byte length + the NUL. -/
def symLen (s : AoutSym) : Nat := SYM_HEADER_SIZE + s.name.length + 1

/-- Fuelled scanning loop of `parse_aout_symbols`: repeatedly decode one
symbol and advance the cursor by its length, until the cursor reaches
the end of the range; the source panics (modelled `none`) when fewer
than 9 bytes remain.  The fuel is an upper bound on the number of
records; each record consumes at least 10 bytes, so fuel equal to the
buffer length always suffices. -/
def parseSymsFuel : Nat → List Nat → Option (List AoutSym)
  | _, [] => some []
  | 0, _ :: _ => none
  | fuel + 1, st =>
    if st.length < SYM_HEADER_SIZE then none
    else
      let sym := parseSym st
      match parseSymsFuel fuel (st.drop (symLen sym)) with
      | some rest => some (sym :: rest)
      | none => none

/-- `parse_aout_symbols` (the `dump` flag only prints and is dropped). -/
def parseAoutSymbols (st : List Nat) : Option (List AoutSym) :=
  parseSymsFuel st.length st

/-- One ELF symbol table entry.  The Rust source duplicates this per
width (`Elf32SymbolTableEntry` / `Elf64SymbolTableEntry`) with identical
numeric content; one structure with `Nat` fields models both, the width
only affecting serialization. -/
structure SymEntry where
  nameOffset : Nat
  value : Nat
  size : Nat
  info : Nat
  other : Nat
  sectionIndex : Nat
deriving DecidableEq, Inhabited, Repr

/-- The reserved all-zero "undefined" entry emitted first. -/
def zeroSymEntry : SymEntry :=
  { nameOffset := 0, value := 0, size := 0, info := 0, other := 0, sectionIndex := 0 }

/-- Wrapping `u32` subtraction `a - b` for `a b < 2^32`. -/
def sub32 (a b : Nat) : Nat := (0x100000000 + a - b) % 0x100000000

/-- The text-symbol filter of `aout_syms_to_elf`: keep symbols classified
text-segment or static-text-segment. -/
def filterText (syms : List AoutSym) : List AoutSym :=
  syms.filter fun s =>
    aoutSymbolType s = AoutSymbolType.TextSegment ∨
      aoutSymbolType s = AoutSymbolType.StaticTextSegment

/-- Stable insertion of a symbol into a list sorted ascending by
address: the new element goes after every element with address ≤ its
own. -/
def insertSym (x : AoutSym) : List AoutSym → List AoutSym
  | [] => [x]
  | y :: ys => if y.value ≤ x.value then y :: insertSym x ys else x :: y :: ys

/-- `sort_by_key(|e| e.header.value)`: a stable ascending sort by
address, modelled as stable insertion sort (extensionally equal to any
stable sort, in particular Rust's stable merge sort). -/
def sortByValue (l : List AoutSym) : List AoutSym :=
  l.foldl (fun acc x => insertSym x acc) []

/-- The `windows(2)` loop of `aout_syms_to_elf`: for each adjacent pair
of the sorted filtered list emit one local-function entry
(`info = SYM_LOCAL | SYM_FUNCTION = 2`, section index 1 = `.text`),
with `value` the first address and `size` the wrapping `u32`
difference of the pair, threading the running string-table name
offset; also produce the tail of the name string table (name bytes
followed by a NUL per emitted symbol). -/
def symPairsLoop : List AoutSym → Nat → List SymEntry × List Nat
  | a :: b :: rest, off =>
    let e : SymEntry :=
      { nameOffset := off, value := a.value, size := sub32 b.value a.value,
        info := 2, other := 0, sectionIndex := 1 }
    let r := symPairsLoop (b :: rest) (off + a.name.length + 1)
    (e :: r.1, a.name ++ 0 :: r.2)
  | _, _ => ([], [])

/-- `aout_syms_to_elf`: filter to text symbols, stable-sort by address,
emit the reserved zero entry and one sized local-function entry per
adjacent pair; the name string table starts with a single NUL and the
name offsets start at 1.  (The numeric content does not depend on the
width flag; the flag only selects the serialized entry layout.) -/
def aoutSymsToElf (syms : List AoutSym) (_is64 : Bool) :
    List SymEntry × List Nat :=
  let tsyms := sortByValue (filterText syms)
  let r := symPairsLoop tsyms 1
  (zeroSymEntry :: r.1, 0 :: r.2)

/-- One ELF program header; `Nat` fields model both packed widths, the
values already reduced modulo the width used by the source. -/
structure ProgHeader where
  ptype : Nat
  offset : Nat
  virtualAddr : Nat
  physicalAddr : Nat
  fileSize : Nat
  memSize : Nat
  flags : Nat
  align : Nat
deriving DecidableEq, Inhabited, Repr

/-- One ELF section header; `Nat` fields model both packed widths. -/
structure SectHeader where
  name : Nat
  stype : Nat
  flags : Nat
  addr : Nat
  offset : Nat
  size : Nat
  link : Nat
  info : Nat
  addrAlign : Nat
  entSize : Nat
deriving DecidableEq, Inhabited, Repr

/-- The section-name string table: the six names `""`, `".text"`,
`".data"`, `".symtab"`, `".strtab"`, `".shstrtab"` concatenated
NUL-terminated (39 bytes, name offsets 0, 1, 7, 13, 21, 29). -/
def shStrTabBytes : List Nat :=
  [0] ++
  [0x2E, 0x74, 0x65, 0x78, 0x74, 0] ++
  [0x2E, 0x64, 0x61, 0x74, 0x61, 0] ++
  [0x2E, 0x73, 0x79, 0x6D, 0x74, 0x61, 0x62, 0] ++
  [0x2E, 0x73, 0x74, 0x72, 0x74, 0x61, 0x62, 0] ++
  [0x2E, 0x73, 0x68, 0x73, 0x74, 0x72, 0x74, 0x61, 0x62, 0]

/-- The assembled output image before serialization: the class-tagged
file header data, the fixed 3 program headers and 6 section headers,
the carried-over blob, and the translated symbol/string tables. -/
structure ElfImage where
  machine : ElfMachine
  entry : Nat
  phText : ProgHeader
  phData : ProgHeader
  phSyms : ProgHeader
  shNull : SectHeader
  shText : SectHeader
  shData : SectHeader
  shSymtab : SectHeader
  shStrtab : SectHeader
  shShstrtab : SectHeader
  blob : List Nat
  symtab : List SymEntry
  strtab : List Nat
  shstrtab : List Nat
deriving DecidableEq, Inhabited, Repr

/-- `SYM_STRING_TABLE_INDEX`: fixed index of `.strtab`. -/
def SYM_STRING_TABLE_INDEX : Nat := 4

/-- `SH_STRING_TABLE_INDEX`: fixed index of `.shstrtab`. -/
def SH_STRING_TABLE_INDEX : Nat := 5

/-- `build` of the structured output image: the program headers and
section headers exactly as `aout_to_elf` computes them, per machine
width, with `u32` sums reduced modulo `2^32` and `u64` sums modulo
`2^64` exactly where the source performs them (note the data program
header offset is a `u32` sum even on the 64-bit path, where it is
computed before the cast to `u64`). -/
def buildImage (m : ElfMachine) (a : Aout) (blob : List Nat)
    (syms : List AoutSym) : ElfImage :=
  let entry := a.entry_point
  let ts := a.text_size
  let ds := a.data_size
  let ss := a.symbol_table_size
  let vb := virtualBase m
  let dla := (entry + align_4k ts) % 0x100000000
  let mo := mainOffset m
  let r := aoutSymsToElf syms (is64bit m)
  let cnt := r.1.length
  if is64bit m then
    { machine := m, entry := entry
      phText :=
        { ptype := 1, offset := mo, virtualAddr := vb + entry,
          physicalAddr := entry, fileSize := ts, memSize := ts,
          flags := 5, align := 4096 }
      phData :=
        { ptype := 1, offset := (mo + ts) % 0x100000000,
          virtualAddr := vb + dla, physicalAddr := dla, fileSize := ds,
          memSize := ds, flags := 6, align := 4096 }
      phSyms :=
        { ptype := 0, offset := (mo + ts) % 0x100000000 + ds,
          virtualAddr := 0, physicalAddr := 0, fileSize := ss,
          memSize := ss, flags := 4, align := 4 }
      shNull :=
        { name := 0, stype := 0, flags := 0, addr := 0, offset := 0,
          size := 0, link := 0, info := 0, addrAlign := 0, entSize := 0 }
      shText :=
        { name := 1, stype := 1, flags := 6, addr := vb + entry,
          offset := mo, size := ts, link := 1, info := 0,
          addrAlign := 64, entSize := 0 }
      shData :=
        { name := 7, stype := 1, flags := 3, addr := vb + dla,
          offset := mo + ts, size := ds, link := 1, info := 0,
          addrAlign := 32, entSize := 0 }
      shSymtab :=
        { name := 13, stype := 2, flags := 0, addr := 0,
          offset := (mo + blob.length) % 0x10000000000000000,
          size := cnt * ELF64_SYMBOL_TABLE_ENTRY_SIZE % 0x10000000000000000,
          link := SYM_STRING_TABLE_INDEX, info := cnt % 0x100000000,
          addrAlign := 8, entSize := ELF64_SYMBOL_TABLE_ENTRY_SIZE }
      shStrtab :=
        { name := 21, stype := 3, flags := 0, addr := 0,
          offset := (mo + blob.length + cnt * ELF64_SYMBOL_TABLE_ENTRY_SIZE) %
            0x10000000000000000,
          size := r.2.length % 0x10000000000000000, link := 0, info := 0,
          addrAlign := 1, entSize := 0 }
      shShstrtab :=
        { name := 29, stype := 3, flags := 0, addr := 0,
          offset := (mo + blob.length + cnt * ELF64_SYMBOL_TABLE_ENTRY_SIZE +
            r.2.length) % 0x10000000000000000,
          size := shStrTabBytes.length, link := 0, info := 0,
          addrAlign := 1, entSize := 0 }
      blob := blob, symtab := r.1, strtab := r.2, shstrtab := shStrTabBytes }
  else
    { machine := m, entry := entry
      phText :=
        { ptype := 1, offset := mo, virtualAddr := (vb + entry) % 0x100000000,
          physicalAddr := entry, fileSize := ts, memSize := ts,
          flags := 5, align := 4096 }
      phData :=
        { ptype := 1, offset := (mo + ts) % 0x100000000,
          virtualAddr := (vb + dla) % 0x100000000, physicalAddr := dla,
          fileSize := ds, memSize := ds, flags := 6, align := 4096 }
      phSyms :=
        { ptype := 0, offset := (mo + ts + ds) % 0x100000000,
          virtualAddr := 0, physicalAddr := 0, fileSize := ss,
          memSize := ss, flags := 4, align := 4 }
      shNull :=
        { name := 0, stype := 0, flags := 0, addr := 0, offset := 0,
          size := 0, link := 0, info := 0, addrAlign := 0, entSize := 0 }
      shText :=
        { name := 1, stype := 1, flags := 6,
          addr := (vb + entry) % 0x100000000, offset := mo, size := ts,
          link := 1, info := 0, addrAlign := 64, entSize := 0 }
      shData :=
        { name := 7, stype := 1, flags := 3,
          addr := (vb + dla) % 0x100000000,
          offset := (mo + ts) % 0x100000000, size := ds, link := 1,
          info := 0, addrAlign := 32, entSize := 0 }
      shSymtab :=
        { name := 13, stype := 2, flags := 0, addr := 0,
          offset := (mo + blob.length) % 0x100000000,
          size := cnt * ELF32_SYMBOL_TABLE_ENTRY_SIZE % 0x100000000,
          link := SYM_STRING_TABLE_INDEX, info := cnt % 0x100000000,
          addrAlign := 8, entSize := ELF32_SYMBOL_TABLE_ENTRY_SIZE }
      shStrtab :=
        { name := 21, stype := 3, flags := 0, addr := 0,
          offset := (mo + blob.length + cnt * ELF32_SYMBOL_TABLE_ENTRY_SIZE) %
            0x100000000,
          size := r.2.length % 0x100000000, link := 0, info := 0,
          addrAlign := 1, entSize := 0 }
      shShstrtab :=
        { name := 29, stype := 3, flags := 0, addr := 0,
          offset := (mo + blob.length + cnt * ELF32_SYMBOL_TABLE_ENTRY_SIZE +
            r.2.length) % 0x100000000,
          size := shStrTabBytes.length, link := 0, info := 0,
          addrAlign := 1, entSize := 0 }
      blob := blob, symtab := r.1, strtab := r.2, shstrtab := shStrTabBytes }

/-- Result of a conversion: `ok` with the structured image, the typed
`err` of `aout_to_elf`, or `crash` for the panicking paths (`todo!`,
`panic!`, out-of-bounds slicing). -/
inductive ConvResult where
  | ok (image : ElfImage)
  | err (msg : String)
  | crash
deriving DecidableEq, Inhabited, Repr

/-- The single `Err` message of `aout_to_elf`. -/
def couldNotParseAout : String := "Could not parse a.out"

/-- `aout_to_elf`, factored over the only three projections of the
input it reads: the 32-byte header prefix, the blob from byte 40 on,
and the total length (used by the panicking bounds of the slice
operations). -/
def aoutToElfCore (hdr blob : List Nat) (len : Nat) : ConvResult :=
  match parseAout hdr with
  | none => .err couldNotParseAout
  | some a =>
    match machOf a.magic with
    | none => .crash
    | some m =>
      if len < AOUT_HEADER_SIZE + PAD_EXTRA_SIZE then .crash
      else if len < AOUT_HEADER_SIZE + PAD_EXTRA_SIZE + a.text_size +
          a.data_size + a.symbol_table_size then .crash
      else
        match parseAoutSymbols ((blob.drop (a.text_size + a.data_size)).take
            a.symbol_table_size) with
        | none => .crash
        | some syms => .ok (buildImage m a blob syms)

/-- `aout_to_elf` on a raw byte buffer, producing the structured image. -/
def aoutToElf (d : List Nat) : ConvResult :=
  aoutToElfCore (d.take 32) (d.drop 40) d.length

/-- The 16 identification bytes (`ElfId::new`): magic, class,
little-endian data encoding, header version 1, OS/ABI none, ABI
version 0, 7 reserved zero bytes. -/
def elfIdBytes (cls : Nat) : List Nat :=
  [0x7F, 0x45, 0x4C, 0x46, cls, 1, 1, 0, 0, 0, 0, 0, 0, 0, 0, 0]

/-- `ElfHeader::new` followed by `as_bytes`: executable type, machine
code, version 1, entry point, program headers right after the file
header, section headers right after the program headers, and the fixed
entry sizes/counts (3 program headers, 6 section headers, section-name
table index 5). -/
def elfHeaderBytes (m : ElfMachine) (entry : Nat) : List Nat :=
  if is64bit m then
    elfIdBytes 2 ++ le16 2 ++ le16 (machineCode m) ++ le32 1 ++
      le64 entry ++ le64 ELF64_HEADER_SIZE ++
      le64 (ELF64_HEADER_SIZE + 3 * ELF64_PROGRAM_HEADER_SIZE) ++ le32 0 ++
      le16 ELF64_HEADER_SIZE ++ le16 ELF64_PROGRAM_HEADER_SIZE ++ le16 3 ++
      le16 ELF64_SECTION_HEADER_SIZE ++ le16 6 ++ le16 SH_STRING_TABLE_INDEX
  else
    elfIdBytes 1 ++ le16 2 ++ le16 (machineCode m) ++ le32 1 ++
      le32 entry ++ le32 ELF32_HEADER_SIZE ++
      le32 (ELF32_HEADER_SIZE + 3 * ELF32_PROGRAM_HEADER_SIZE) ++ le32 0 ++
      le16 ELF32_HEADER_SIZE ++ le16 ELF32_PROGRAM_HEADER_SIZE ++ le16 3 ++
      le16 ELF32_SECTION_HEADER_SIZE ++ le16 6 ++ le16 SH_STRING_TABLE_INDEX

/-- `as_bytes` of one program header (`Elf32ProgramHeader` /
`Elf64ProgramHeader` packed field order; the two widths place `flags`
differently). -/
def phEntryBytes (m : ElfMachine) (p : ProgHeader) : List Nat :=
  if is64bit m then
    le32 p.ptype ++ le32 p.flags ++ le64 p.offset ++ le64 p.virtualAddr ++
      le64 p.physicalAddr ++ le64 p.fileSize ++ le64 p.memSize ++ le64 p.align
  else
    le32 p.ptype ++ le32 p.offset ++ le32 p.virtualAddr ++
      le32 p.physicalAddr ++ le32 p.fileSize ++ le32 p.memSize ++
      le32 p.flags ++ le32 p.align

/-- `as_bytes` of one section header (`Elf32SectionHeader` /
`Elf64SectionHeader` packed field order). -/
def shEntryBytes (m : ElfMachine) (s : SectHeader) : List Nat :=
  if is64bit m then
    le32 s.name ++ le32 s.stype ++ le64 s.flags ++ le64 s.addr ++
      le64 s.offset ++ le64 s.size ++ le32 s.link ++ le32 s.info ++
      le64 s.addrAlign ++ le64 s.entSize
  else
    le32 s.name ++ le32 s.stype ++ le32 s.flags ++ le32 s.addr ++
      le32 s.offset ++ le32 s.size ++ le32 s.link ++ le32 s.info ++
      le32 s.addrAlign ++ le32 s.entSize

/-- `as_bytes` of one symbol table entry (`Elf32SymbolTableEntry` /
`Elf64SymbolTableEntry` packed field order). -/
def symEntryBytes (m : ElfMachine) (e : SymEntry) : List Nat :=
  if is64bit m then
    le32 e.nameOffset ++ [e.info % 0x100, e.other % 0x100] ++
      le16 e.sectionIndex ++ le64 e.value ++ le64 e.size
  else
    le32 e.nameOffset ++ le32 e.value ++ le32 e.size ++
      [e.info % 0x100, e.other % 0x100] ++ le16 e.sectionIndex

/-- The three program headers rendered in fixed order. -/
def phAllBytes (img : ElfImage) : List Nat :=
  phEntryBytes img.machine img.phText ++ phEntryBytes img.machine img.phData ++
    phEntryBytes img.machine img.phSyms

/-- The six section headers rendered in fixed order. -/
def shAllBytes (img : ElfImage) : List Nat :=
  shEntryBytes img.machine img.shNull ++ shEntryBytes img.machine img.shText ++
    shEntryBytes img.machine img.shData ++
    shEntryBytes img.machine img.shSymtab ++
    shEntryBytes img.machine img.shStrtab ++
    shEntryBytes img.machine img.shShstrtab

/-- The new ELF symbol table rendered entry by entry. -/
def symtabBytes (img : ElfImage) : List Nat :=
  (img.symtab.map (symEntryBytes img.machine)).flatten

/-- The final byte image: the concatenation at the end of
`aout_to_elf`. -/
def serializeImage (img : ElfImage) : List Nat :=
  elfHeaderBytes img.machine img.entry ++ phAllBytes img ++ shAllBytes img ++
    List.replicate PAD_SIZE 0 ++ img.blob ++ symtabBytes img ++ img.strtab ++
    img.shstrtab

/-- `aout_to_elf` down to raw bytes: the structured conversion followed
by the final concatenation (`some` exactly on the successful path). -/
def aoutToElfBytes (d : List Nat) : Option (List Nat) :=
  match aoutToElf d with
  | .ok img => some (serializeImage img)
  | _ => none

/-- The offset/address plan of `aout_to_elf` as a pure function of the
five layout inputs, with debug-checked `u32` arithmetic: `none` when
the 4096-byte round-up of the text size underflows/overflows, when the
data load address computation `entry + align_4k(text_size)` overflows
`u32`, or (on the 32-bit path) when the cumulative segment offsets
exceed `u32`.  On success: (data load address, text offset, data
offset, retained-symbol-table offset). -/
def layoutChecked (m : ElfMachine) (ts ds ss entry : Nat) :
    Option (Nat × Nat × Nat × Nat) :=
  let _ := ss
  match align4kChecked ts with
  | none => none
  | some al =>
    if entry + al < 0x100000000 then
      let dla := entry + al
      let mo := mainOffset m
      if is64bit m then some (dla, mo, mo + ts, mo + ts + ds)
      else if mo + ts + ds < 0x100000000 then
        some (dla, mo, mo + ts, mo + ts + ds)
      else none
    else none

/-- Wrapping `u32` subtraction agrees with exact subtraction when the
minuend dominates and fits in `u32`. -/
theorem sub32_eq {a b : Nat} (hle : b ≤ a) (ha : a < 0x100000000) :
    sub32 a b = a - b := by
  unfold sub32
  have h1 : 0x100000000 + a - b = 0x100000000 + (a - b) := by omega
  rw [h1, Nat.add_mod_left, Nat.mod_eq_of_lt (by omega)]

/-- The exact round-up dominates its argument (for positive input). -/
theorem le_align4kExact {v : Nat} (h : 1 ≤ v) : v ≤ align4kExact v := by
  unfold align4kExact
  have h1 := Nat.div_add_mod (v - 1) 4096
  have h2 : (v - 1) % 4096 < 4096 := Nat.mod_lt _ (by omega)
  omega

/-- The wrapping `align_4k` agrees with the exact round-up whenever the
input is positive and the result fits in `u32`. -/
theorem align4k_eq_exact {v : Nat} (h1 : 1 ≤ v)
    (h2 : align4kExact v < 0x100000000) : align_4k v = align4kExact v := by
  have hv : v < 0x100000000 := lt_of_le_of_lt (le_align4kExact h1) h2
  have h2x : ((v - 1) / 4096 + 1) * 4096 < 0x100000000 := h2
  unfold align_4k align4kExact
  have h3 : v + 0x100000000 - 1 = 0x100000000 + (v - 1) := by omega
  rw [h3, Nat.add_mod_left,
    Nat.mod_eq_of_lt (show v - 1 < 0x100000000 by omega),
    Nat.mod_eq_of_lt h2x]

/-- A buffer with no NUL byte yields no name
(`CStr::from_bytes_until_nul` fails). -/
theorem bytesUntilNul_eq_none {l : List Nat} (h : ∀ b ∈ l, b ≠ 0) :
    bytesUntilNul l = none := by
  induction l with
  | nil => rfl
  | cons b rest ih =>
    unfold bytesUntilNul
    rw [if_neg (h b (List.mem_cons_self b rest))]
    rw [ih fun x hx => h x (List.mem_cons_of_mem b hx)]

/-- The name bytes returned by `bytesUntilNul` are no longer than the
scanned buffer. -/
theorem bytesUntilNul_length_le {l bs : List Nat}
    (h : bytesUntilNul l = some bs) : bs.length ≤ l.length := by
  induction l generalizing bs with
  | nil => simp [bytesUntilNul] at h
  | cons b rest ih =>
    unfold bytesUntilNul at h
    by_cases hb : b = 0
    · rw [if_pos hb] at h
      cases h
      simp
    · rw [if_neg hb] at h
      cases hr : bytesUntilNul rest with
      | none => rw [hr] at h; cases h
      | some bs2 =>
        rw [hr] at h
        cases h
        simpa using Nat.succ_le_succ (ih hr)

/-- Any parsed symbol name is at most 128 bytes long (the bounded
lookahead window, or the fixed substitutes). -/
theorem parseSym_name_le (st : List Nat) : (parseSym st).name.length ≤ 128 := by
  unfold parseSym
  simp only
  cases hb : bytesUntilNul ((st.drop SYM_HEADER_SIZE).take
      (min 0x80 (st.length - SYM_HEADER_SIZE))) with
  | none => simp [hb]
  | some bs =>
    have h1 := bytesUntilNul_length_le hb
    have h2 : ((st.drop SYM_HEADER_SIZE).take
        (min 0x80 (st.length - SYM_HEADER_SIZE))).length ≤ 128 := by
      simp only [List.length_take, List.length_drop]
      omega
    simp only [hb]
    by_cases hu : isValidUtf8 bs = true
    · rw [if_pos hu]
      omega
    · rw [if_neg hu]
      simp [nonameBytes]

/-- Every symbol record is at least 10 bytes long. -/
theorem symLen_ge (s : AoutSym) : 10 ≤ symLen s := by
  unfold symLen SYM_HEADER_SIZE
  omega

/-- The scanning loop accepts an exhausted range regardless of fuel. -/
theorem parseSymsFuel_nil (f : Nat) : parseSymsFuel f [] = some [] := by
  cases f <;> rfl

/-- One unfolding step of the scanning loop on a non-empty range. -/
theorem parseSymsFuel_cons_step (g : Nat) (x : Nat) (xs : List Nat) :
    parseSymsFuel (g + 1) (x :: xs) =
      if (x :: xs).length < SYM_HEADER_SIZE then none
      else
        match parseSymsFuel g ((x :: xs).drop (symLen (parseSym (x :: xs)))) with
        | some rest => some (parseSym (x :: xs) :: rest)
        | none => none := rfl

/-- The loop result does not depend on the fuel, once the fuel covers
the range length (each record consumes at least one byte). -/
theorem parseSymsFuel_irrel :
    ∀ f1 f2 st, st.length ≤ f1 → st.length ≤ f2 →
      parseSymsFuel f1 st = parseSymsFuel f2 st := by
  intro f1
  induction f1 with
  | zero =>
    intro f2 st h1 h2
    have hst : st = [] := List.eq_nil_of_length_eq_zero (by omega)
    subst hst
    rw [parseSymsFuel_nil, parseSymsFuel_nil]
  | succ g ih =>
    intro f2 st h1 h2
    cases st with
    | nil => rw [parseSymsFuel_nil, parseSymsFuel_nil]
    | cons x xs =>
      cases f2 with
      | zero => simp at h2
      | succ g2 =>
        rw [parseSymsFuel_cons_step, parseSymsFuel_cons_step]
        by_cases h9 : (x :: xs).length < SYM_HEADER_SIZE
        · rw [if_pos h9, if_pos h9]
        · rw [if_neg h9, if_neg h9]
          have hsl := symLen_ge (parseSym (x :: xs))
          have hd : ((x :: xs).drop (symLen (parseSym (x :: xs)))).length =
              (x :: xs).length - symLen (parseSym (x :: xs)) :=
            List.length_drop _ _
          have hx : (x :: xs).length = xs.length + 1 := rfl
          rw [ih g2 ((x :: xs).drop (symLen (parseSym (x :: xs))))
            (by omega) (by omega)]

/-- One unfolding step of `parse_aout_symbols` on a range holding at
least one record header. -/
theorem parseAoutSymbols_cons (st : List Nat)
    (h9 : SYM_HEADER_SIZE ≤ st.length) :
    parseAoutSymbols st =
      match parseAoutSymbols (st.drop (symLen (parseSym st))) with
      | some rest => some (parseSym st :: rest)
      | none => none := by
  cases st with
  | nil => simp [SYM_HEADER_SIZE] at h9
  | cons x xs =>
    unfold parseAoutSymbols
    have hx : (x :: xs).length = xs.length + 1 := rfl
    rw [hx, parseSymsFuel_cons_step,
      if_neg (by simp [SYM_HEADER_SIZE] at h9 ⊢; omega)]
    have hsl := symLen_ge (parseSym (x :: xs))
    have hd : ((x :: xs).drop (symLen (parseSym (x :: xs)))).length =
        (x :: xs).length - symLen (parseSym (x :: xs)) := List.length_drop _ _
    rw [parseSymsFuel_irrel xs.length
      ((x :: xs).drop (symLen (parseSym (x :: xs)))).length _
      (by rw [hd, hx]; omega) (le_refl _)]

/-- Each decoded record consumes at least 10 bytes of the range. -/
theorem parseSymsFuel_count :
    ∀ f st l, parseSymsFuel f st = some l → 10 * l.length ≤ st.length + 9 := by
  intro f
  induction f with
  | zero =>
    intro st l h
    cases st with
    | nil =>
      rw [parseSymsFuel_nil] at h
      cases h
      simp
    | cons x xs => cases h
  | succ g ih =>
    intro st l h
    cases st with
    | nil =>
      rw [parseSymsFuel_nil] at h
      cases h
      simp
    | cons x xs =>
      rw [parseSymsFuel_cons_step] at h
      by_cases h9 : (x :: xs).length < SYM_HEADER_SIZE
      · rw [if_pos h9] at h; cases h
      · rw [if_neg h9] at h
        cases hr : parseSymsFuel g ((x :: xs).drop
            (symLen (parseSym (x :: xs)))) with
        | none => rw [hr] at h; cases h
        | some rest =>
          rw [hr] at h
          cases h
          have hrec := ih _ _ hr
          have hsl := symLen_ge (parseSym (x :: xs))
          have hd : ((x :: xs).drop (symLen (parseSym (x :: xs)))).length =
              (x :: xs).length - symLen (parseSym (x :: xs)) :=
            List.length_drop _ _
          simp only [SYM_HEADER_SIZE] at h9
          simp only [List.length_cons] at *
          omega

/-- Every symbol produced by the scanning loop has a name of at most
128 bytes. -/
theorem parseSymsFuel_names :
    ∀ f st l, parseSymsFuel f st = some l → ∀ s ∈ l, s.name.length ≤ 128 := by
  intro f
  induction f with
  | zero =>
    intro st l h s hs
    cases st with
    | nil =>
      rw [parseSymsFuel_nil] at h
      cases h
      cases hs
    | cons x xs => cases h
  | succ g ih =>
    intro st l h s hs
    cases st with
    | nil =>
      rw [parseSymsFuel_nil] at h
      cases h
      cases hs
    | cons x xs =>
      rw [parseSymsFuel_cons_step] at h
      by_cases h9 : (x :: xs).length < SYM_HEADER_SIZE
      · rw [if_pos h9] at h; cases h
      · rw [if_neg h9] at h
        cases hr : parseSymsFuel g ((x :: xs).drop
            (symLen (parseSym (x :: xs)))) with
        | none => rw [hr] at h; cases h
        | some rest =>
          rw [hr] at h
          cases h
          rcases List.mem_cons.mp hs with hs | hs
          · subst hs
            exact parseSym_name_le _
          · exact ih _ _ hr s hs

/-- Stable insertion adds exactly one element. -/
theorem insertSym_length (x : AoutSym) (l : List AoutSym) :
    (insertSym x l).length = l.length + 1 := by
  induction l with
  | nil => rfl
  | cons y ys ih =>
    unfold insertSym
    by_cases h : y.value ≤ x.value
    · rw [if_pos h]
      simp [ih]
    · rw [if_neg h]
      simp

/-- Membership in a stable insertion. -/
theorem insertSym_mem {a x : AoutSym} {l : List AoutSym} :
    a ∈ insertSym x l ↔ a = x ∨ a ∈ l := by
  induction l with
  | nil => simp [insertSym]
  | cons y ys ih =>
    unfold insertSym
    by_cases h : y.value ≤ x.value
    · rw [if_pos h]
      simp only [List.mem_cons, ih]
      tauto
    · rw [if_neg h]
      simp

/-- Stable insertion preserves sortedness by address. -/
theorem insertSym_pairwise {x : AoutSym} {l : List AoutSym}
    (h : l.Pairwise fun a b => a.value ≤ b.value) :
    (insertSym x l).Pairwise fun a b => a.value ≤ b.value := by
  induction l with
  | nil => simp [insertSym]
  | cons y ys ih =>
    rcases List.pairwise_cons.mp h with ⟨hy, hys⟩
    unfold insertSym
    by_cases hvx : y.value ≤ x.value
    · rw [if_pos hvx]
      refine List.pairwise_cons.mpr ⟨?_, ih hys⟩
      intro a ha
      rcases insertSym_mem.mp ha with ha | ha
      · subst ha; exact hvx
      · exact hy a ha
    · rw [if_neg hvx]
      refine List.pairwise_cons.mpr ⟨?_, h⟩
      intro a ha
      rcases List.mem_cons.mp ha with ha | ha
      · subst ha; omega
      · exact le_trans (by omega) (hy a ha)

/-- The stable sort preserves length. -/
theorem sortByValue_length (l : List AoutSym) :
    (sortByValue l).length = l.length := by
  unfold sortByValue
  suffices h : ∀ (acc : List AoutSym),
      (l.foldl (fun acc x => insertSym x acc) acc).length =
        acc.length + l.length by
    simpa using h []
  induction l with
  | nil => intro acc; simp
  | cons x xs ih =>
    intro acc
    simp only [List.foldl_cons, ih, insertSym_length, List.length_cons]
    omega

/-- The stable sort preserves membership. -/
theorem sortByValue_mem {a : AoutSym} {l : List AoutSym} :
    a ∈ sortByValue l ↔ a ∈ l := by
  unfold sortByValue
  suffices h : ∀ (acc : List AoutSym),
      a ∈ l.foldl (fun acc x => insertSym x acc) acc ↔ a ∈ acc ∨ a ∈ l by
    simpa using h []
  induction l with
  | nil => intro acc; simp
  | cons x xs ih =>
    intro acc
    simp only [List.foldl_cons, ih, insertSym_mem, List.mem_cons]
    tauto

/-- The stable sort produces a list sorted ascending by address. -/
theorem sortByValue_pairwise (l : List AoutSym) :
    (sortByValue l).Pairwise fun a b => a.value ≤ b.value := by
  unfold sortByValue
  suffices h : ∀ (acc : List AoutSym),
      (acc.Pairwise fun a b => a.value ≤ b.value) →
        (l.foldl (fun acc x => insertSym x acc) acc).Pairwise
          fun a b => a.value ≤ b.value by
    exact h [] (by simp)
  induction l with
  | nil => intro acc hacc; simpa using hacc
  | cons x xs ih =>
    intro acc hacc
    exact ih _ (insertSym_pairwise hacc)

/-- The filtered list is a sublist of the input, membership-wise. -/
theorem filterText_mem {s : AoutSym} {syms : List AoutSym}
    (h : s ∈ filterText syms) : s ∈ syms := by
  unfold filterText at h
  exact List.mem_of_mem_filter h

/-- The filtered list is no longer than the input. -/
theorem filterText_length_le (syms : List AoutSym) :
    (filterText syms).length ≤ syms.length := by
  unfold filterText
  exact List.length_filter_le _ _

/-- The pair loop emits one entry per adjacent pair: one less than the
list length (and none for the empty or singleton list). -/
theorem symPairsLoop_count :
    ∀ (L : List AoutSym) (off : Nat),
      (symPairsLoop L off).1.length = L.length - 1 := by
  intro L
  induction L with
  | nil => intro off; rfl
  | cons a tl ih =>
    intro off
    cases tl with
    | nil => rfl
    | cons b rest =>
      show ((symPairsLoop (b :: rest) (off + a.name.length + 1)).1.length + 1 =
        _)
      rw [ih]
      simp

/-- The string-table tail built by the pair loop is bounded by 129 bytes
per input symbol (name of at most 128 bytes plus its NUL). -/
theorem symPairsLoop_strBound :
    ∀ (L : List AoutSym) (off : Nat), (∀ s ∈ L, s.name.length ≤ 128) →
      (symPairsLoop L off).2.length ≤ 129 * L.length := by
  intro L
  induction L with
  | nil => intro off h; simp [symPairsLoop]
  | cons a tl ih =>
    intro off h
    cases tl with
    | nil => simp [symPairsLoop]
    | cons b rest =>
      have ha : a.name.length ≤ 128 := h a (by simp)
      have hrec := ih (off + a.name.length + 1) fun s hs =>
        h s (List.mem_cons_of_mem a hs)
      show (a.name ++ 0 :: (symPairsLoop (b :: rest)
        (off + a.name.length + 1)).2).length ≤ _
      simp only [List.length_append, List.length_cons] at *
      omega

/-- The numeric content (value, size, info, section index) of the
entries emitted by the pair loop, for a sorted list of in-range
addresses: one entry per adjacent pair, value the first address, size
the exact difference of the pair, info 2 (local binding, function
type), section index 1. -/
theorem symPairsLoop_spec :
    ∀ (L : List AoutSym) (off : Nat),
      (L.Pairwise fun a b => a.value ≤ b.value) →
      (∀ s ∈ L, s.value < 0x100000000) →
      (symPairsLoop L off).1.map
          (fun e => (e.value, e.size, e.info, e.sectionIndex)) =
        (L.zip L.tail).map
          (fun p => (p.1.value, p.2.value - p.1.value, 2, 1)) := by
  intro L
  induction L with
  | nil => intro off hs hb; rfl
  | cons a tl ih =>
    intro off hs hb
    cases tl with
    | nil => rfl
    | cons b rest =>
      rcases List.pairwise_cons.mp hs with ⟨hab, hs2⟩
      have h1 : a.value ≤ b.value := hab b (by simp)
      have h2 : b.value < 0x100000000 := hb b (by simp)
      have hrec := ih (off + a.name.length + 1) hs2 fun s hsm =>
        hb s (List.mem_cons_of_mem a hsm)
      show ((a.value, sub32 b.value a.value, 2, 1) :: _) = _
      rw [sub32_eq h1 h2]
      simp only [List.zip_cons_cons, List.map_cons, List.tail_cons] at hrec ⊢
      rw [hrec]

/-- Inversion of a successful conversion: the header parsed, the magic
mapped to a machine, the declared segment sizes fitted inside the
buffer, the symbol range scanned cleanly, and the image is the one
built from these pieces over the blob starting at byte 40. -/
theorem aoutToElf_ok {d : List Nat} {img : ElfImage}
    (h : aoutToElf d = ConvResult.ok img) :
    ∃ a m syms, parseAout (d.take 32) = some a ∧ machOf a.magic = some m ∧
      AOUT_HEADER_SIZE + PAD_EXTRA_SIZE ≤ d.length ∧
      AOUT_HEADER_SIZE + PAD_EXTRA_SIZE + a.text_size + a.data_size +
        a.symbol_table_size ≤ d.length ∧
      parseAoutSymbols (((d.drop 40).drop (a.text_size + a.data_size)).take
        a.symbol_table_size) = some syms ∧
      img = buildImage m a (d.drop 40) syms := by
  unfold aoutToElf aoutToElfCore at h
  split at h
  · exact ConvResult.noConfusion h
  next a hp =>
    split at h
    · exact ConvResult.noConfusion h
    next m hm =>
      split at h
      · exact ConvResult.noConfusion h
      · split at h
        · exact ConvResult.noConfusion h
        · split at h
          · exact ConvResult.noConfusion h
          next syms hsy =>
            cases h
            exact ⟨a, m, syms, hp, hm, by omega, by omega, hsy, rfl⟩

/-- Build a 32-byte a.out header image: little-endian magic, then
big-endian text/data sizes, zero bss, big-endian symbol-table size and
entry point, zero sp/pc table sizes. -/
def mkAout (magic ts ds ss entry : Nat) : List Nat :=
  [magic % 256, magic / 256 % 256, magic / 65536 % 256,
    magic / 16777216 % 256] ++
  [ts / 16777216 % 256, ts / 65536 % 256, ts / 256 % 256, ts % 256] ++
  [ds / 16777216 % 256, ds / 65536 % 256, ds / 256 % 256, ds % 256] ++
  List.replicate 4 0 ++
  [ss / 16777216 % 256, ss / 65536 % 256, ss / 256 % 256, ss % 256] ++
  [entry / 16777216 % 256, entry / 65536 % 256, entry / 256 % 256,
    entry % 256] ++
  List.replicate 8 0

/-- Build one a.out symbol record: 4-byte spacer, big-endian value,
type byte, NUL-terminated name. -/
def symRecBytes (v t : Nat) (nm : List Nat) : List Nat :=
  List.replicate 4 0 ++
    [v / 16777216 % 256, v / 65536 % 256, v / 256 % 256, v % 256] ++
    [t] ++ nm ++ [0]

/-- A 112-byte Amd64 sample: text 0x20, data 0x10, and two text symbols
at addresses 0 and 0x10 (24 bytes of symbol records). -/
def sampleInput : List Nat :=
  mkAout 0x978a0000 0x20 0x10 24 0 ++ List.replicate 8 0 ++
    List.replicate 0x20 1 ++ List.replicate 0x10 2 ++
    symRecBytes 0 0x54 [0x6D, 0x61] ++ symRecBytes 0x10 0x54 [0x62, 0x78]

/-- The same sample with the eight skipped bytes 32..40 overwritten. -/
def sampleInputAlt : List Nat :=
  mkAout 0x978a0000 0x20 0x10 24 0 ++ List.replicate 8 0xAB ++
    List.replicate 0x20 1 ++ List.replicate 0x10 2 ++
    symRecBytes 0 0x54 [0x6D, 0x61] ++ symRecBytes 0x10 0x54 [0x62, 0x78]

/-- The parsed header of the sample. -/
def sampleAout : Aout :=
  match parseAout (sampleInput.take 32) with
  | some a => a
  | none => default

/-- The image converted from the sample. -/
def sampleImage : ElfImage :=
  match aoutToElf sampleInput with
  | ConvResult.ok i => i
  | _ => default

/-- Claim C3: the spec calls for a typed `UnsupportedArchitecture` error
carrying the raw magic; the code instead reaches the `todo!` branch of
`aout_mach_to_elf` and panics (an uncontrolled crash) on any
unrecognized magic, here the 32-zero-byte input with magic 0.  (No
output file is written either way, since the conversion never
returns.) -/
theorem c3_unknown_magic_crash :
    machOf 0 = none ∧ aoutToElf (List.replicate 32 0) = ConvResult.crash :=
  ⟨rfl, rfl⟩

/-- Claim C5 (counterexample): at `text_size = 0` the 4096-byte round-up
`align_4k` underflows (`v - 1` on `u32`), so the layout computation is
not free of arithmetic underflow/overflow on every input. -/
theorem c5_counterexample :
    layoutChecked ElfMachine.Amd64 0 0 0 0 = none ∧
      align4kChecked 0 = none := ⟨rfl, rfl⟩

/-- Claim C5 (amended): the layout plan is a pure function of the five
inputs and is computed without panic or arithmetic underflow/overflow
whenever `text_size ≥ 1`, the data load address
`entry_point + align_4k(text_size)` fits in `u32`, and the cumulative
offset `main_offset + text_size + data_size` fits in `u32`. -/
theorem c5_layout_no_overflow (m : ElfMachine) (ts ds ss entry : Nat)
    (h1 : 1 ≤ ts) (h2 : entry + align4kExact ts < 0x100000000)
    (h3 : mainOffset m + ts + ds < 0x100000000) :
    layoutChecked m ts ds ss entry =
      some (entry + align4kExact ts, mainOffset m, mainOffset m + ts,
        mainOffset m + ts + ds) := by
  have hx : ((ts - 1) / 4096 + 1) * 4096 = align4kExact ts := rfl
  have hal : align4kChecked ts = some (align4kExact ts) := by
    unfold align4kChecked
    rw [if_neg (by omega)]
    simp only
    rw [hx, if_pos (by omega)]
  unfold layoutChecked
  rw [hal]
  simp only
  rw [if_pos h2]
  cases m
  · rw [if_neg (by simp [is64bit]), if_pos h3]
  · rw [if_pos (by simp [is64bit])]

/-- Claim C5 (witness instance): a concrete in-range layout. -/
theorem c5_witness :
    layoutChecked ElfMachine.Amd64 0x20 0x10 0x18 0 =
      some (0 + align4kExact 0x20, mainOffset ElfMachine.Amd64,
        mainOffset ElfMachine.Amd64 + 0x20,
        mainOffset ElfMachine.Amd64 + 0x20 + 0x10) :=
  c5_layout_no_overflow ElfMachine.Amd64 0x20 0x10 0x18 0 (by decide)
    (by decide) (by decide)

/-- Claim C7: the text LOAD program header's file-size field is the
a.out text size and the data LOAD program header's file-size field is
the a.out data size. -/
theorem c7_segment_size_fidelity (d : List Nat) (a : Aout) (img : ElfImage)
    (hp : parseAout (d.take 32) = some a)
    (h : aoutToElf d = ConvResult.ok img) :
    img.phText.fileSize = a.text_size ∧ img.phData.fileSize = a.data_size := by
  rcases aoutToElf_ok h with ⟨a2, m, syms, hp2, hm, h1, h2, hsy, himg⟩
  rw [hp] at hp2
  cases hp2
  subst himg
  cases m <;> exact ⟨rfl, rfl⟩

/-- Claim C7 (witness instance). -/
theorem c7_witness :
    sampleImage.phText.fileSize = sampleAout.text_size ∧
      sampleImage.phData.fileSize = sampleAout.data_size :=
  c7_segment_size_fidelity sampleInput sampleAout sampleImage rfl rfl

/-- A 64-byte Amd64 sample with text 0x10, data 8, and an empty
symbol-table range. -/
def c9Input : List Nat :=
  mkAout 0x978a0000 0x10 0x8 0 0 ++ List.replicate 8 0 ++
    List.replicate 0x10 0 ++ List.replicate 0x8 3

/-- The parsed header of the empty-symbol sample. -/
def c9Aout : Aout :=
  match parseAout (c9Input.take 32) with
  | some a => a
  | none => default

/-- The image converted from the empty-symbol sample. -/
def c9Image : ElfImage :=
  match aoutToElf c9Input with
  | ConvResult.ok i => i
  | _ => default

/-- Claim C9: with zero symbol records in the symbol-table range the
emitted symbol table is exactly the reserved all-zero entry and the
symbol-name string table is exactly one zero byte. -/
theorem c9_empty_symbol_range (d : List Nat) (a : Aout) (img : ElfImage)
    (hp : parseAout (d.take 32) = some a)
    (hss : a.symbol_table_size = 0)
    (h : aoutToElf d = ConvResult.ok img) :
    img.symtab = [zeroSymEntry] ∧ img.strtab = [0] := by
  rcases aoutToElf_ok h with ⟨a2, m, syms, hp2, hm, h1, h2, hsy, himg⟩
  rw [hp] at hp2
  cases hp2
  rw [hss] at hsy
  rw [List.take_zero] at hsy
  rw [show parseAoutSymbols [] = some ([] : List AoutSym) from rfl] at hsy
  cases hsy
  subst himg
  cases m <;> exact ⟨rfl, rfl⟩

/-- Claim C9 (witness instance). -/
theorem c9_witness : c9Image.symtab = [zeroSymEntry] ∧ c9Image.strtab = [0] :=
  c9_empty_symbol_range c9Input c9Aout c9Image rfl rfl rfl

/-- Claim C10: the carried-over blob is exactly the input from byte
offset 40 (32-byte header plus 8 skipped bytes) to the end, so its
length is the input length minus 40; moreover the conversion result
only depends on the first 32 bytes, the bytes from 40 on, and the
length — bytes 32..40 are never read or copied. -/
theorem c10_blob_from_40 (d : List Nat) (img : ElfImage)
    (h : aoutToElf d = ConvResult.ok img) :
    img.blob = d.drop 40 ∧ img.blob.length = d.length - 40 ∧
      ∀ d2 : List Nat, d2.take 32 = d.take 32 → d2.drop 40 = d.drop 40 →
        d2.length = d.length → aoutToElf d2 = ConvResult.ok img := by
  rcases aoutToElf_ok h with ⟨a, m, syms, hp, hm, h1, h2, hsy, himg⟩
  have hblob : img.blob = d.drop 40 := by
    subst himg
    cases m <;> rfl
  refine ⟨hblob, by rw [hblob]; exact List.length_drop _ _, ?_⟩
  intro d2 e1 e2 e3
  show aoutToElfCore (d2.take 32) (d2.drop 40) d2.length = ConvResult.ok img
  rw [e1, e2, e3]
  exact h

/-- Claim C10 (witness instance): the sample blob, and invariance under
rewriting the eight skipped bytes 32..40. -/
theorem c10_witness :
    sampleImage.blob = sampleInput.drop 40 ∧
      sampleImage.blob.length = sampleInput.length - 40 ∧
      aoutToElf sampleInputAlt = ConvResult.ok sampleImage := by
  have h := c10_blob_from_40 sampleInput sampleImage rfl
  exact ⟨h.1, h.2.1, h.2.2 sampleInputAlt rfl rfl rfl⟩

/-- A 72-byte Amd64 sample with text 0x20, no data or symbols, and
entry point 0x10. -/
def c1Input : List Nat :=
  mkAout 0x978a0000 0x20 0 0 0x10 ++ List.replicate 8 0 ++
    List.replicate 0x20 0

/-- The parsed header of the entry-point sample. -/
def c1Aout : Aout :=
  match parseAout (c1Input.take 32) with
  | some a => a
  | none => default

/-- The image converted from the entry-point sample. -/
def c1Image : ElfImage :=
  match aoutToElf c1Input with
  | ConvResult.ok i => i
  | _ => default

/-- Claim C1 (counterexample): with entry point 0x10 and text size 0x20
the data load address written to the data LOAD program header and the
`.data` section header is `0x8000_1010 = base + entry + align_4k(text)`,
not `base + align_4k(entry) = 0x8000_1000`: the round-up is applied to
the text size and added to the entry point, not applied to the entry
point. -/
theorem c1_counterexample :
    parseAout (c1Input.take 32) = some c1Aout ∧
    c1Aout.entry_point = 0x10 ∧ c1Aout.text_size = 0x20 ∧
    aoutToElf c1Input = ConvResult.ok c1Image ∧
    c1Image.phData.virtualAddr ≠
      virtualBase ElfMachine.Amd64 + align_4k c1Aout.entry_point ∧
    c1Image.shData.addr ≠
      virtualBase ElfMachine.Amd64 + align_4k c1Aout.entry_point :=
  ⟨rfl, rfl, rfl, rfl, by decide, by decide⟩

/-- Claim C1 (amended): for a valid input with positive text size whose
data load address fits below the Amd64 base, the virtual address in the
data LOAD program header and in the `.data` section header equals the
architecture's virtual base plus the entry point plus the text size
rounded up to the next 4096-byte boundary. -/
theorem c1_data_load_address (d : List Nat) (a : Aout) (img : ElfImage)
    (hp : parseAout (d.take 32) = some a)
    (h : aoutToElf d = ConvResult.ok img)
    (h1 : 1 ≤ a.text_size)
    (h2 : a.entry_point + align4kExact a.text_size < 0x80000000) :
    img.phData.virtualAddr =
      virtualBase img.machine + a.entry_point + align4kExact a.text_size ∧
    img.shData.addr = img.phData.virtualAddr := by
  rcases aoutToElf_ok h with ⟨a2, m, syms, hp2, hm, hl1, hl2, hsy, himg⟩
  rw [hp] at hp2
  cases hp2
  subst himg
  have hal : align_4k a.text_size = align4kExact a.text_size :=
    align4k_eq_exact h1 (by omega)
  have hdla : (a.entry_point + align_4k a.text_size) % 0x100000000 =
      a.entry_point + align4kExact a.text_size := by
    rw [hal]
    exact Nat.mod_eq_of_lt (by omega)
  cases m
  · constructor
    · show (virtualBase ElfMachine.Amd64 +
          (a.entry_point + align_4k a.text_size) % 0x100000000) %
          0x100000000 = _
      rw [hdla, Nat.mod_eq_of_lt (by simp [virtualBase]; omega)]
      simp [virtualBase, buildImage, is64bit]
      omega
    · rfl
  · constructor
    · show virtualBase ElfMachine.RiscV +
          (a.entry_point + align_4k a.text_size) % 0x100000000 = _
      rw [hdla]
      simp [virtualBase, buildImage, is64bit]
    · rfl

/-- Claim C1 (witness instance). -/
theorem c1_witness :
    c1Image.phData.virtualAddr =
      virtualBase c1Image.machine + c1Aout.entry_point +
        align4kExact c1Aout.text_size ∧
    c1Image.shData.addr = c1Image.phData.virtualAddr :=
  c1_data_load_address c1Input c1Aout c1Image rfl rfl (by decide) (by decide)

/-- Two text symbols, at addresses 0 and 0x10 (Scenario B of the
spec). -/
def c2Syms : List AoutSym :=
  [{ value := 0, symType := 0x54, name := [0x6D, 0x61] },
   { value := 0x10, symType := 0x54, name := [0x62, 0x78] }]

/-- Claim C2: over the sorted filtered text-symbol list of length n ≥ 1
the emitted symbol table is the reserved all-zero entry followed by
exactly n − 1 entries, one per adjacent pair in order, each with value
the pair's first address, size the pair's address difference, info 2
(binding local = 0 in the high nibble, type function = 2 in the low
nibble) and section index 1 (the fixed `.text` index). -/
theorem c2_adjacent_pair_symbols (syms : List AoutSym) (w : Bool)
    (hv : ∀ s ∈ syms, s.value < 0x100000000)
    (hn : 1 ≤ (sortByValue (filterText syms)).length) :
    (aoutSymsToElf syms w).1.length =
      (sortByValue (filterText syms)).length ∧
    (aoutSymsToElf syms w).1.map
        (fun e => (e.value, e.size, e.info, e.sectionIndex)) =
      (0, 0, 0, 0) :: ((sortByValue (filterText syms)).zip
          (sortByValue (filterText syms)).tail).map
        (fun p => (p.1.value, p.2.value - p.1.value, 2, 1)) := by
  have hbs : ∀ s ∈ sortByValue (filterText syms), s.value < 0x100000000 :=
    fun s hs => hv s (filterText_mem (sortByValue_mem.mp hs))
  have hsorted := sortByValue_pairwise (filterText syms)
  constructor
  · show (zeroSymEntry ::
        (symPairsLoop (sortByValue (filterText syms)) 1).1).length = _
    rw [List.length_cons, symPairsLoop_count]
    omega
  · show (zeroSymEntry ::
        (symPairsLoop (sortByValue (filterText syms)) 1).1).map _ = _
    rw [List.map_cons, symPairsLoop_spec _ 1 hsorted hbs]
    rfl

/-- Claim C2 (witness instance, Scenario B): two text symbols at 0 and
0x10 produce the reserved entry plus exactly one function symbol with
value 0 and size 0x10. -/
theorem c2_witness :
    (aoutSymsToElf c2Syms false).1.length =
      (sortByValue (filterText c2Syms)).length ∧
    (aoutSymsToElf c2Syms false).1.map
        (fun e => (e.value, e.size, e.info, e.sectionIndex)) =
      (0, 0, 0, 0) :: ((sortByValue (filterText c2Syms)).zip
          (sortByValue (filterText c2Syms)).tail).map
        (fun p => (p.1.value, p.2.value - p.1.value, 2, 1)) :=
  c2_adjacent_pair_symbols c2Syms false (by decide) (by decide)

/-- The serialized ELF file header has the per-class header size. -/
theorem elfHeaderBytes_length (m : ElfMachine) (entry : Nat) :
    (elfHeaderBytes m entry).length = ehSize m := by
  cases m <;> rfl

/-- Each serialized program header has the per-class entry size. -/
theorem phEntryBytes_length (m : ElfMachine) (p : ProgHeader) :
    (phEntryBytes m p).length = phSize m := by
  cases m <;> rfl

/-- Each serialized section header has the per-class entry size. -/
theorem shEntryBytes_length (m : ElfMachine) (s : SectHeader) :
    (shEntryBytes m s).length = shSize m := by
  cases m <;> rfl

/-- Claim C6: a successful conversion serializes to exactly the
concatenation, in order, of the ELF file header, the 3 program
headers, the 6 section headers, the 12-byte zero pad block, the
carried-over blob, the new symbol table, the new symbol-name string
table, and the section-name string table — with the stated region
shapes (header of the per-class size, 3 program headers, 6 section
headers, a 12-byte pad). -/
theorem c6_wire_concatenation (d : List Nat) (img : ElfImage)
    (h : aoutToElf d = ConvResult.ok img) :
    aoutToElfBytes d = some (elfHeaderBytes img.machine img.entry ++
      phAllBytes img ++ shAllBytes img ++ List.replicate PAD_SIZE 0 ++
      img.blob ++ symtabBytes img ++ img.strtab ++ img.shstrtab) ∧
    (elfHeaderBytes img.machine img.entry).length = ehSize img.machine ∧
    (phAllBytes img).length = 3 * phSize img.machine ∧
    (shAllBytes img).length = 6 * shSize img.machine ∧
    (List.replicate PAD_SIZE 0).length = 12 := by
  refine ⟨?_, elfHeaderBytes_length _ _, ?_, ?_, rfl⟩
  · unfold aoutToElfBytes
    rw [h]
    rfl
  · unfold phAllBytes
    simp only [List.length_append, phEntryBytes_length]
    omega
  · unfold shAllBytes
    simp only [List.length_append, shEntryBytes_length]
    omega

/-- Claim C6 (witness instance). -/
theorem c6_witness :
    aoutToElfBytes sampleInput = some
      (elfHeaderBytes sampleImage.machine sampleImage.entry ++
        phAllBytes sampleImage ++ shAllBytes sampleImage ++
        List.replicate PAD_SIZE 0 ++ sampleImage.blob ++
        symtabBytes sampleImage ++ sampleImage.strtab ++
        sampleImage.shstrtab) ∧
    (elfHeaderBytes sampleImage.machine sampleImage.entry).length =
      ehSize sampleImage.machine ∧
    (phAllBytes sampleImage).length = 3 * phSize sampleImage.machine ∧
    (shAllBytes sampleImage).length = 6 * shSize sampleImage.machine ∧
    (List.replicate PAD_SIZE 0).length = 12 :=
  c6_wire_concatenation sampleInput sampleImage rfl

/-- A symbol-table range whose first record's 128-byte name window
holds no NUL: 9 header bytes, then 128 times 0x41, then one NUL (which
lies beyond the window and lets the rest of the range parse as a
second record). -/
def c8Table : List Nat :=
  List.replicate 9 0 ++ List.replicate 128 0x41 ++ [0]

/-- The records parsed after the first record of `c8Table`. -/
def c8Rest : List AoutSym :=
  match parseAoutSymbols (c8Table.drop 10) with
  | some l => l
  | none => []

set_option maxRecDepth 40000 in
/-- Claim C8 (counterexample): the first record's bounded lookahead
window holds no NUL, yet symbol parsing does not fail with any error —
it substitutes the empty name for the record and scans on to a
successful result. -/
theorem c8_counterexample :
    (∀ b ∈ (c8Table.drop SYM_HEADER_SIZE).take
        (min 0x80 (c8Table.length - SYM_HEADER_SIZE)), b ≠ 0) ∧
    (parseAoutSymbols c8Table).isSome = true ∧
    (parseSym c8Table).name = [] := ⟨by decide, by decide, by decide⟩

/-- Claim C8 (amended): a record whose NUL-terminated name has no
terminator within the 128-byte bounded lookahead window is decoded
with the empty substitute name (`unwrap_or` of the empty C string), is
treated as 10 bytes long, and scanning continues silently with the
rest of the range; no error is raised for it. -/
theorem c8_unterminated_name (st : List Nat)
    (h9 : SYM_HEADER_SIZE ≤ st.length)
    (hn : ∀ b ∈ (st.drop SYM_HEADER_SIZE).take
        (min 0x80 (st.length - SYM_HEADER_SIZE)), b ≠ 0) :
    (parseSym st).name = [] ∧ symLen (parseSym st) = 10 ∧
    ∀ l, parseAoutSymbols (st.drop 10) = some l →
      parseAoutSymbols st = some (parseSym st :: l) := by
  have hname : (parseSym st).name = [] := by
    unfold parseSym
    simp only
    rw [bytesUntilNul_eq_none hn]
  have hlen : symLen (parseSym st) = 10 := by
    unfold symLen
    rw [hname]
    rfl
  refine ⟨hname, hlen, ?_⟩
  intro l hl
  rw [parseAoutSymbols_cons st h9, hlen, hl]

set_option maxRecDepth 40000 in
/-- Claim C8 (witness instance): the concrete unterminated-name range
decodes its first record with the empty name, as a 10-byte record, and
scanning continues over the rest of the range. -/
theorem c8_witness :
    (parseSym c8Table).name = [] ∧ symLen (parseSym c8Table) = 10 ∧
      parseAoutSymbols c8Table = some (parseSym c8Table :: c8Rest) := by
  have h := c8_unterminated_name c8Table (by decide) (by decide)
  exact ⟨h.1, h.2.1, h.2.2 c8Rest (by decide)⟩

/-- Six regions laid out consecutively (each ending no later than the
next begins) are pairwise non-overlapping. -/
theorem pairwise6 (o0 s0 o1 s1 o2 s2 o3 s3 o4 s4 o5 s5 : Nat)
    (h01 : o0 + s0 ≤ o1) (h12 : o1 + s1 ≤ o2) (h23 : o2 + s2 ≤ o3)
    (h34 : o3 + s3 ≤ o4) (h45 : o4 + s4 ≤ o5) :
    List.Pairwise (fun r1 r2 => r1.1 + r1.2 ≤ r2.1 ∨ r2.1 + r2.2 ≤ r1.1)
      [(o0, s0), (o1, s1), (o2, s2), (o3, s3), (o4, s4), (o5, s5)] := by
  have h02 : o0 + s0 ≤ o2 := by omega
  have h03 : o0 + s0 ≤ o3 := by omega
  have h04 : o0 + s0 ≤ o4 := by omega
  have h05 : o0 + s0 ≤ o5 := by omega
  have h13 : o1 + s1 ≤ o3 := by omega
  have h14 : o1 + s1 ≤ o4 := by omega
  have h15 : o1 + s1 ≤ o5 := by omega
  have h24 : o2 + s2 ≤ o4 := by omega
  have h25 : o2 + s2 ≤ o5 := by omega
  have h35 : o3 + s3 ≤ o5 := by omega
  refine List.Pairwise.cons ?_ (List.Pairwise.cons ?_ (List.Pairwise.cons ?_
    (List.Pairwise.cons ?_ (List.Pairwise.cons ?_ (List.Pairwise.cons ?_
      List.Pairwise.nil)))))
  · intro x hx
    simp only [List.mem_cons, List.not_mem_nil, or_false] at hx
    rcases hx with rfl | rfl | rfl | rfl | rfl
    exacts [Or.inl h01, Or.inl h02, Or.inl h03, Or.inl h04, Or.inl h05]
  · intro x hx
    simp only [List.mem_cons, List.not_mem_nil, or_false] at hx
    rcases hx with rfl | rfl | rfl | rfl
    exacts [Or.inl h12, Or.inl h13, Or.inl h14, Or.inl h15]
  · intro x hx
    simp only [List.mem_cons, List.not_mem_nil, or_false] at hx
    rcases hx with rfl | rfl | rfl
    exacts [Or.inl h23, Or.inl h24, Or.inl h25]
  · intro x hx
    simp only [List.mem_cons, List.not_mem_nil, or_false] at hx
    rcases hx with rfl | rfl
    exacts [Or.inl h34, Or.inl h35]
  · intro x hx
    simp only [List.mem_cons, List.not_mem_nil, or_false] at hx
    rcases hx with rfl
    exact Or.inl h45
  · intro x hx
    exact absurd hx (List.not_mem_nil x)

/-- A 56-byte Amd64 sample with text 0x10 and neither data nor symbols
nor trailing bytes. -/
def c4Input : List Nat :=
  mkAout 0x978a0000 0x10 0 0 0 ++ List.replicate 8 0 ++
    List.replicate 0x10 0

/-- The image converted from the no-data sample. -/
def c4Image : ElfImage :=
  match aoutToElf c4Input with
  | ConvResult.ok i => i
  | _ => default

/-- Claim C4 (counterexample): on a valid input with no data, no
symbols and no trailing bytes, the `.data` and `.symtab` section
headers carry the same offset (416), so the six offsets do not
strictly increase in emission order. -/
theorem c4_counterexample :
    aoutToElf c4Input = ConvResult.ok c4Image ∧
    c4Image.shData.offset = c4Image.shSymtab.offset ∧
    c4Image.shData.offset = 416 := ⟨rfl, rfl, rfl⟩

/-- Claim C4 (amended): for every valid input (of realistic size), the
six section-header offsets are non-decreasing in emission order; the
`.text` offset strictly exceeds the NULL header's 0, and `.symtab` <
`.strtab` < `.shstrtab` strictly (the symbol table and string table
are never empty); `.text` < `.data` whenever the text segment is
non-empty, with equality when text_size = 0; `.data` < `.symtab`
whenever the carried blob extends past the data segment, with
equality when the data size is 0 and the blob ends at the text
segment (no data, no symbol bytes, no trailing bytes); and no two
emitted regions' [offset, offset+size) ranges overlap. -/
theorem c4_section_layout (d : List Nat) (img : ElfImage)
    (h : aoutToElf d = ConvResult.ok img)
    (hb : d.length ≤ 0x100000) :
    (img.shNull.offset ≤ img.shText.offset ∧
     img.shText.offset ≤ img.shData.offset ∧
     img.shData.offset ≤ img.shSymtab.offset ∧
     img.shSymtab.offset < img.shStrtab.offset ∧
     img.shStrtab.offset < img.shShstrtab.offset) ∧
    0 < img.shText.offset ∧
    (0 < img.shText.size → img.shText.offset < img.shData.offset) ∧
    (img.shText.size = 0 → img.shText.offset = img.shData.offset) ∧
    (img.shText.size + img.shData.size < img.blob.length →
      img.shData.offset < img.shSymtab.offset) ∧
    (img.shData.size = 0 → img.blob.length = img.shText.size →
      img.shData.offset = img.shSymtab.offset) ∧
    List.Pairwise (fun r1 r2 => r1.1 + r1.2 ≤ r2.1 ∨ r2.1 + r2.2 ≤ r1.1)
      [(img.shNull.offset, img.shNull.size),
       (img.shText.offset, img.shText.size),
       (img.shData.offset, img.shData.size),
       (img.shSymtab.offset, img.shSymtab.size),
       (img.shStrtab.offset, img.shStrtab.size),
       (img.shShstrtab.offset, img.shShstrtab.size)] := by
  rcases aoutToElf_ok h with ⟨a, m, syms, hp, hm, hl1, hl2, hsy, himg⟩
  simp only [AOUT_HEADER_SIZE, PAD_EXTRA_SIZE] at hl2
  have hcount : 10 * syms.length ≤ a.symbol_table_size + 9 := by
    have h1 := parseSymsFuel_count _ _ _ hsy
    have h2 : (((d.drop 40).drop (a.text_size + a.data_size)).take
        a.symbol_table_size).length ≤ a.symbol_table_size := by
      simp [List.length_take]
    omega
  have hnames : ∀ s ∈ sortByValue (filterText syms), s.name.length ≤ 128 :=
    fun s hs => parseSymsFuel_names _ _ _ hsy s
      (filterText_mem (sortByValue_mem.mp hs))
  have hLlen : (sortByValue (filterText syms)).length ≤ syms.length := by
    rw [sortByValue_length]
    exact filterText_length_le _
  have hcnt : ∀ w, (aoutSymsToElf syms w).1.length ≤ syms.length + 1 := by
    intro w
    show (zeroSymEntry ::
      (symPairsLoop (sortByValue (filterText syms)) 1).1).length ≤ _
    rw [List.length_cons, symPairsLoop_count]
    omega
  have hcpos : ∀ w, 1 ≤ (aoutSymsToElf syms w).1.length := by
    intro w
    show 1 ≤ (zeroSymEntry ::
      (symPairsLoop (sortByValue (filterText syms)) 1).1).length
    simp
  have hstr : ∀ w, (aoutSymsToElf syms w).2.length ≤ 1 + 129 * syms.length := by
    intro w
    show (0 :: (symPairsLoop (sortByValue (filterText syms)) 1).2).length ≤ _
    rw [List.length_cons]
    have h1 := symPairsLoop_strBound (sortByValue (filterText syms)) 1 hnames
    omega
  have hspos : ∀ w, 1 ≤ (aoutSymsToElf syms w).2.length := by
    intro w
    show 1 ≤ (0 :: (symPairsLoop (sortByValue (filterText syms)) 1).2).length
    simp
  have hblob : (d.drop 40).length = d.length - 40 := List.length_drop _ _
  subst himg
  cases m
  case Amd64 =>
    have p0 : (buildImage ElfMachine.Amd64 a (d.drop 40) syms).shNull.offset
      = 0 := rfl
    have p1 : (buildImage ElfMachine.Amd64 a (d.drop 40) syms).shText.offset
      = 400 := rfl
    have p2 : (buildImage ElfMachine.Amd64 a (d.drop 40) syms).shData.offset
      = (400 + a.text_size) % 4294967296 := rfl
    have p3 : (buildImage ElfMachine.Amd64 a (d.drop 40) syms).shSymtab.offset
      = (400 + (d.drop 40).length) % 4294967296 := rfl
    have p4 : (buildImage ElfMachine.Amd64 a (d.drop 40) syms).shStrtab.offset
      = (400 + (d.drop 40).length +
          (aoutSymsToElf syms false).1.length * 16) % 4294967296 := rfl
    have p5 : (buildImage ElfMachine.Amd64 a (d.drop 40)
        syms).shShstrtab.offset
      = (400 + (d.drop 40).length + (aoutSymsToElf syms false).1.length * 16 +
          (aoutSymsToElf syms false).2.length) % 4294967296 := rfl
    have s0 : (buildImage ElfMachine.Amd64 a (d.drop 40) syms).shNull.size
      = 0 := rfl
    have s1 : (buildImage ElfMachine.Amd64 a (d.drop 40) syms).shText.size
      = a.text_size := rfl
    have s2 : (buildImage ElfMachine.Amd64 a (d.drop 40) syms).shData.size
      = a.data_size := rfl
    have s3 : (buildImage ElfMachine.Amd64 a (d.drop 40) syms).shSymtab.size
      = (aoutSymsToElf syms false).1.length * 16 % 4294967296 := rfl
    have s4 : (buildImage ElfMachine.Amd64 a (d.drop 40) syms).shStrtab.size
      = (aoutSymsToElf syms false).2.length % 4294967296 := rfl
    have s5 : (buildImage ElfMachine.Amd64 a (d.drop 40) syms).shShstrtab.size
      = 39 := rfl
    have pB : (buildImage ElfMachine.Amd64 a (d.drop 40) syms).blob.length
      = (d.drop 40).length := rfl
    have hc := hcnt false
    have hcp := hcpos false
    have hs := hstr false
    have hsp := hspos false
    have q1 : (400 + a.text_size) % 4294967296 = 400 + a.text_size :=
      Nat.mod_eq_of_lt (by omega)
    have q2 : (400 + (d.drop 40).length) % 4294967296 =
        400 + (d.drop 40).length := Nat.mod_eq_of_lt (by omega)
    have q3 : (400 + (d.drop 40).length +
        (aoutSymsToElf syms false).1.length * 16) % 4294967296 =
        400 + (d.drop 40).length + (aoutSymsToElf syms false).1.length * 16 :=
      Nat.mod_eq_of_lt (by omega)
    have q4 : (400 + (d.drop 40).length +
        (aoutSymsToElf syms false).1.length * 16 +
        (aoutSymsToElf syms false).2.length) % 4294967296 =
        400 + (d.drop 40).length + (aoutSymsToElf syms false).1.length * 16 +
          (aoutSymsToElf syms false).2.length :=
      Nat.mod_eq_of_lt (by omega)
    have q5 : (aoutSymsToElf syms false).1.length * 16 % 4294967296 =
        (aoutSymsToElf syms false).1.length * 16 :=
      Nat.mod_eq_of_lt (by omega)
    have q6 : (aoutSymsToElf syms false).2.length % 4294967296 =
        (aoutSymsToElf syms false).2.length :=
      Nat.mod_eq_of_lt (by omega)
    rw [p0, p1, p2, p3, p4, p5, pB, s0, s1, s2, s3, s4, s5, q1, q2, q3, q4,
      q5, q6]
    refine ⟨⟨by omega, by omega, by omega, by omega, by omega⟩,
      by omega, by omega, by omega, by omega, by omega, ?_⟩
    exact pairwise6 _ _ _ _ _ _ _ _ _ _ _ _ (by omega) (by omega) (by omega)
      (by omega) (by omega)
  case RiscV =>
    have p0 : (buildImage ElfMachine.RiscV a (d.drop 40) syms).shNull.offset
      = 0 := rfl
    have p1 : (buildImage ElfMachine.RiscV a (d.drop 40) syms).shText.offset
      = 628 := rfl
    have p2 : (buildImage ElfMachine.RiscV a (d.drop 40) syms).shData.offset
      = 628 + a.text_size := rfl
    have p3 : (buildImage ElfMachine.RiscV a (d.drop 40) syms).shSymtab.offset
      = (628 + (d.drop 40).length) % 18446744073709551616 := rfl
    have p4 : (buildImage ElfMachine.RiscV a (d.drop 40) syms).shStrtab.offset
      = (628 + (d.drop 40).length +
          (aoutSymsToElf syms true).1.length * 24) % 18446744073709551616 :=
      rfl
    have p5 : (buildImage ElfMachine.RiscV a (d.drop 40)
        syms).shShstrtab.offset
      = (628 + (d.drop 40).length + (aoutSymsToElf syms true).1.length * 24 +
          (aoutSymsToElf syms true).2.length) % 18446744073709551616 := rfl
    have s0 : (buildImage ElfMachine.RiscV a (d.drop 40) syms).shNull.size
      = 0 := rfl
    have s1 : (buildImage ElfMachine.RiscV a (d.drop 40) syms).shText.size
      = a.text_size := rfl
    have s2 : (buildImage ElfMachine.RiscV a (d.drop 40) syms).shData.size
      = a.data_size := rfl
    have s3 : (buildImage ElfMachine.RiscV a (d.drop 40) syms).shSymtab.size
      = (aoutSymsToElf syms true).1.length * 24 % 18446744073709551616 := rfl
    have s4 : (buildImage ElfMachine.RiscV a (d.drop 40) syms).shStrtab.size
      = (aoutSymsToElf syms true).2.length % 18446744073709551616 := rfl
    have s5 : (buildImage ElfMachine.RiscV a (d.drop 40) syms).shShstrtab.size
      = 39 := rfl
    have pB : (buildImage ElfMachine.RiscV a (d.drop 40) syms).blob.length
      = (d.drop 40).length := rfl
    have hc := hcnt true
    have hcp := hcpos true
    have hs := hstr true
    have hsp := hspos true
    have q2 : (628 + (d.drop 40).length) % 18446744073709551616 =
        628 + (d.drop 40).length := Nat.mod_eq_of_lt (by omega)
    have q3 : (628 + (d.drop 40).length +
        (aoutSymsToElf syms true).1.length * 24) % 18446744073709551616 =
        628 + (d.drop 40).length + (aoutSymsToElf syms true).1.length * 24 :=
      Nat.mod_eq_of_lt (by omega)
    have q4 : (628 + (d.drop 40).length +
        (aoutSymsToElf syms true).1.length * 24 +
        (aoutSymsToElf syms true).2.length) % 18446744073709551616 =
        628 + (d.drop 40).length + (aoutSymsToElf syms true).1.length * 24 +
          (aoutSymsToElf syms true).2.length :=
      Nat.mod_eq_of_lt (by omega)
    have q5 : (aoutSymsToElf syms true).1.length * 24 % 18446744073709551616 =
        (aoutSymsToElf syms true).1.length * 24 :=
      Nat.mod_eq_of_lt (by omega)
    have q6 : (aoutSymsToElf syms true).2.length % 18446744073709551616 =
        (aoutSymsToElf syms true).2.length :=
      Nat.mod_eq_of_lt (by omega)
    rw [p0, p1, p2, p3, p4, p5, pB, s0, s1, s2, s3, s4, s5, q2, q3, q4, q5,
      q6]
    refine ⟨⟨by omega, by omega, by omega, by omega, by omega⟩,
      by omega, by omega, by omega, by omega, by omega, ?_⟩
    exact pairwise6 _ _ _ _ _ _ _ _ _ _ _ _ (by omega) (by omega) (by omega)
      (by omega) (by omega)

/-- Claim C4 (witness instance). -/
theorem c4_witness :
    (sampleImage.shNull.offset ≤ sampleImage.shText.offset ∧
     sampleImage.shText.offset ≤ sampleImage.shData.offset ∧
     sampleImage.shData.offset ≤ sampleImage.shSymtab.offset ∧
     sampleImage.shSymtab.offset < sampleImage.shStrtab.offset ∧
     sampleImage.shStrtab.offset < sampleImage.shShstrtab.offset) ∧
    0 < sampleImage.shText.offset ∧
    (0 < sampleImage.shText.size →
      sampleImage.shText.offset < sampleImage.shData.offset) ∧
    (sampleImage.shText.size = 0 →
      sampleImage.shText.offset = sampleImage.shData.offset) ∧
    (sampleImage.shText.size + sampleImage.shData.size <
        sampleImage.blob.length →
      sampleImage.shData.offset < sampleImage.shSymtab.offset) ∧
    (sampleImage.shData.size = 0 →
      sampleImage.blob.length = sampleImage.shText.size →
      sampleImage.shData.offset = sampleImage.shSymtab.offset) ∧
    List.Pairwise (fun r1 r2 => r1.1 + r1.2 ≤ r2.1 ∨ r2.1 + r2.2 ≤ r1.1)
      [(sampleImage.shNull.offset, sampleImage.shNull.size),
       (sampleImage.shText.offset, sampleImage.shText.size),
       (sampleImage.shData.offset, sampleImage.shData.size),
       (sampleImage.shSymtab.offset, sampleImage.shSymtab.size),
       (sampleImage.shStrtab.offset, sampleImage.shStrtab.size),
       (sampleImage.shShstrtab.offset, sampleImage.shShstrtab.size)] :=
  c4_section_layout sampleInput sampleImage rfl (by decide)
